import Mathlib

/-!
Shallow embedding of the configuration-resolution and shortcut-running logic of
`src/src/extension.ts` (a VS Code extension managing "terminal shortcuts").

Modelling conventions:
* TypeScript optional fields (`field?: T`) become `Option T`; `none` means the
  field is absent from the record (the JSON sources cannot produce `undefined`
  values, so absent-vs-undefined coincide).
* JavaScript truthiness on strings (`a || b`) is modelled by `jsOrString`:
  the empty string is the only falsy string.
* `readFileConfig` returns `undefined` on a missing, unreadable, unparseable or
  non-object file; all those outcomes are modelled as `none : Option FileConfig`.
  A present file whose `commands` field is missing or not an array is
  `some { commands := none }`; note that in JavaScript an *empty* array is
  truthy, so `{ commands := some [] }` is distinct from both.
* The effect of `runShortcut` on the host (terminal creation/reuse, focus,
  text dispatch) is captured in the pure record `RunEffect`.
-/

/-- `EnvMap` from extension.ts: a string-keyed map of environment variables.
Only passed through, never inspected. -/
abbrev EnvMap := List (String × String)

/-- The `'editor' | 'panel'` union used by the `location` field. -/
inductive ShortcutLocation where
  | editor
  | panel
deriving DecidableEq

/-- `ShortcutIconConfig` from extension.ts. -/
structure ShortcutIconConfig where
  light : Option String := none
  dark : Option String := none
deriving DecidableEq

/-- `TerminalShortcutConfig` from extension.ts. Optional fields are `Option`;
`none` means the field is absent from the source document. -/
structure TerminalShortcutConfig where
  id : String
  label : String
  command : String
  terminalName : Option String := none
  cwd : Option String := none
  env : Option EnvMap := none
  reuse : Option Bool := none
  focus : Option Bool := none
  statusBar : Option Bool := none
  codicon : Option String := none
  statusBarText : Option String := none
  icon : Option ShortcutIconConfig := none
  location : Option ShortcutLocation := none
  viewColumn : Option Int := none
deriving DecidableEq

/-- `FileConfig` from extension.ts: the parsed per-project JSON document.
`commands := none` models a document whose `commands` field is missing or is
not an array (the `Array.isArray` check in `loadShortcuts` fails). -/
structure FileConfig where
  commands : Option (List TerminalShortcutConfig) := none
deriving DecidableEq

/-- `mergeShortcuts` from extension.ts: primary wins on id conflicts; entries
of `secondary` whose id does not occur in `primary` are appended in order. -/
def mergeShortcuts (primary secondary : List TerminalShortcutConfig) :
    List TerminalShortcutConfig :=
  let ids := primary.map fun s => s.id
  let extras := secondary.filter fun s => s.id ∉ ids
  primary ++ extras

/-- The per-record body of `normalizeShortcuts` from extension.ts: the object
spread `{ reuse: true, focus: true, codicon: 'terminal', location: 'editor',
...s }` lets every field present on `s` override the four defaults. -/
def normalizeShortcut (s : TerminalShortcutConfig) : TerminalShortcutConfig :=
  { s with
    reuse := some (s.reuse.getD true)
    focus := some (s.focus.getD true)
    codicon := some (s.codicon.getD "terminal")
    location := some (s.location.getD ShortcutLocation.editor) }

/-- `normalizeShortcuts` from extension.ts (its `context` parameter is unused
in the source and dropped here): apply defaults to every record. -/
def normalizeShortcuts (arr : List TerminalShortcutConfig) :
    List TerminalShortcutConfig :=
  arr.map normalizeShortcut

/-- `loadShortcuts` from extension.ts, as a function of its three inputs: the
per-project file read result, the settings-based list, and the
`mergeUserAndWorkspace` flag. The guard
`fromFile && fromFile.commands && Array.isArray(fromFile.commands)` holds
exactly when the file parsed and `commands` is an array (an empty array is
truthy in JavaScript). -/
def loadShortcuts (fromFile : Option FileConfig)
    (fromSettings : List TerminalShortcutConfig)
    (mergeWithSettings : Bool) : List TerminalShortcutConfig :=
  match fromFile with
  | some fc =>
    match fc.commands with
    | some cmds =>
      if mergeWithSettings then
        normalizeShortcuts (mergeShortcuts cmds fromSettings)
      else
        normalizeShortcuts cmds
    | none => normalizeShortcuts fromSettings
  | none => normalizeShortcuts fromSettings

/-- The string `` `${base}-${i}` `` built by `makeUniqueId`: `base`, a hyphen,
and the decimal rendering of `i`. -/
def candidateId (base : String) (i : Nat) : String :=
  base ++ "-" ++ Nat.repr i

/-- Lower bound on the length of `Nat.toDigitsCore`: a number at least
`10 ^ e` needs at least `e + 1` characters (given enough fuel). Companion to
Mathlib's upper bound `Nat.repr_length`. -/
theorem toDigitsCore_length_lower :
    ∀ (e n f : Nat), 10 ^ e ≤ n → n < f →
      e + 1 ≤ (Nat.toDigitsCore 10 f n []).length := by
  intro e
  induction e with
  | zero =>
    intro n f _ hf
    match f, hf with
    | f + 1, _ =>
      simp only [Nat.toDigitsCore]
      split
      · simp
      · rw [Nat.toDigitsCore_lens_eq]
        omega
  | succ e ih =>
    intro n f h hf
    have hten : (0 : Nat) < 10 := by norm_num
    have hmul : 10 ^ e * 10 ≤ n := by
      calc 10 ^ e * 10 = 10 ^ (e + 1) := (pow_succ 10 e).symm
        _ ≤ n := h
    have hdiv : 10 ^ e ≤ n / 10 := (Nat.le_div_iff_mul_le hten).mpr hmul
    have hpos : 0 < n := lt_of_lt_of_le (pow_pos hten (e + 1)) h
    have hne : ¬ n / 10 = 0 := by
      have : 0 < 10 ^ e := pow_pos hten e
      omega
    match f, hf with
    | f + 1, hf =>
      have hlt : n / 10 < f := by
        have h1 : n / 10 < n := Nat.div_lt_self hpos (by norm_num)
        omega
      simp only [Nat.toDigitsCore]
      rw [if_neg hne, Nat.toDigitsCore_lens_eq]
      have := ih (n / 10) f hdiv hlt
      omega

/-- Lower bound on the length of the decimal rendering `Nat.repr`. -/
theorem repr_length_lower (e n : Nat) (h : 10 ^ e ≤ n) :
    e + 1 ≤ (Nat.repr n).length := by
  have hrepr : Nat.repr n = (Nat.toDigitsCore 10 (n + 1) n []).asString := rfl
  have hlen : ((Nat.toDigitsCore 10 (n + 1) n []).asString).length
      = (Nat.toDigitsCore 10 (n + 1) n []).length := rfl
  rw [hrepr, hlen]
  exact toDigitsCore_length_lower e n (n + 1) h (Nat.lt_succ_self n)

/-- The length of a candidate id. -/
theorem candidateId_length (base : String) (i : Nat) :
    (candidateId base i).length = base.length + 1 + (Nat.repr i).length := by
  have h1 : (base ++ "-" ++ Nat.repr i).length
      = (base ++ "-").length + (Nat.repr i).length := String.length_append _ _
  have h2 : (base ++ "-").length = base.length + ("-" : String).length :=
    String.length_append _ _
  have h3 : ("-" : String).length = 1 := rfl
  rw [candidateId, h1, h2, h3]

/-- Every member of a list of naturals is bounded by the `foldr max 0`. -/
theorem le_foldr_max (l : List Nat) (x : Nat) (hx : x ∈ l) :
    x ≤ l.foldr max 0 := by
  induction l with
  | nil => cases hx
  | cons a t ih =>
    simp only [List.foldr_cons]
    rcases List.mem_cons.mp hx with rfl | h
    · exact Nat.le_max_left _ _
    · exact le_trans (ih h) (Nat.le_max_right _ _)

/-- The `while` loop of `makeUniqueId` terminates: some candidate id is free.
Proof: a candidate with a decimal part longer than every member of `existing`
cannot belong to `existing`. -/
theorem exists_candidate_free (base : String) (existing : List String) :
    ∃ j, candidateId base (j + 1) ∉ existing := by
  set L := (existing.map String.length).foldr max 0 with hL
  refine ⟨10 ^ (L + 1) - 1, fun hmem => ?_⟩
  have hk : 10 ^ (L + 1) - 1 + 1 = 10 ^ (L + 1) :=
    Nat.succ_pred_eq_of_pos (pow_pos (by norm_num) _)
  have h1 : (candidateId base (10 ^ (L + 1) - 1 + 1)).length ≤ L :=
    le_foldr_max _ _ (List.mem_map_of_mem String.length hmem)
  have h2 : L + 2 ≤ (candidateId base (10 ^ (L + 1) - 1 + 1)).length := by
    rw [candidateId_length, hk]
    have h3 : (L + 1) + 1 ≤ (Nat.repr (10 ^ (L + 1))).length :=
      repr_length_lower (L + 1) _ le_rfl
    omega
  omega

/-- `makeUniqueId` from extension.ts: return `base` if it is not taken,
otherwise `base-1`, `base-2`, … with the least free positive suffix. The
source's `while (existing.has(...)) i++` search for the least free suffix is
rendered by `Nat.find` over the proof that a free suffix exists. -/
def makeUniqueId (base : String) (existing : List String) : String :=
  if base ∈ existing then
    candidateId base (Nat.find (exists_candidate_free base existing) + 1)
  else base

/-- JavaScript `a || b` on strings: the empty string is the only falsy
string. -/
def jsOrString (a b : String) : String :=
  if a = "" then b else a

/-- The target terminal display name computed by `runShortcut`:
`s.terminalName || s.label || s.id` under JavaScript truthiness. -/
def targetTerminalName (s : TerminalShortcutConfig) : String :=
  jsOrString (s.terminalName.getD "") (jsOrString s.label s.id)

/-- The result of `toViewColumn` from extension.ts: `vscode.ViewColumn.Two`,
`Three`, or `Active`. -/
inductive ResolvedViewColumn where
  | two
  | three
  | active
deriving DecidableEq

/-- The value returned by `resolveTerminalLocation` from extension.ts: either
`vscode.TerminalLocation.Panel` or a `TerminalEditorLocationOptions` record
`{ viewColumn, preserveFocus }`. -/
inductive ResolvedTerminalLocation where
  | panel
  | editorArea (viewColumn : ResolvedViewColumn) (preserveFocus : Bool)
deriving DecidableEq

/-- `toViewColumn` from extension.ts: columns 2 and 3 map to themselves,
everything else (absent or out of range) maps to the active column. -/
def toViewColumn (n : Option Int) : ResolvedViewColumn :=
  if n = some 2 then ResolvedViewColumn.two
  else if n = some 3 then ResolvedViewColumn.three
  else ResolvedViewColumn.active

/-- `resolveTerminalLocation` from extension.ts: the panel when requested,
otherwise an editor-area placement with `preserveFocus: s.focus === false`. -/
def resolveTerminalLocation (s : TerminalShortcutConfig) :
    ResolvedTerminalLocation :=
  if s.location = some ShortcutLocation.panel then
    ResolvedTerminalLocation.panel
  else
    ResolvedTerminalLocation.editorArea (toViewColumn s.viewColumn)
      (s.focus = some false)

/-- The `vscode.TerminalOptions` record passed to `createTerminal` by
`runShortcut`. -/
structure TerminalOptions where
  name : String
  cwd : Option String
  env : Option EnvMap
  location : ResolvedTerminalLocation
deriving DecidableEq

/-- The observable effect of one `runShortcut` call on the host:
`reusedExisting` is true when an open terminal was reused instead of creating
one; `createdWith` holds the creation options when a terminal was created;
`focusShown` is the boolean passed to `terminal.show` (true brings the session
to the foreground); `sentText`/`sentNewline` are the `sendText` arguments. -/
structure RunEffect where
  reusedExisting : Bool
  terminalName : String
  createdWith : Option TerminalOptions
  focusShown : Bool
  sentText : String
  sentNewline : Bool
deriving DecidableEq

/-- `runShortcut` from extension.ts, as a pure function of the record and the
display names of the currently open terminal sessions. The source reuses a
terminal exactly when `s.reuse !== false` and `vscode.window.terminals` has a
session whose name equals the target name; otherwise it creates one. -/
def runShortcut (s : TerminalShortcutConfig) (openTerminals : List String) :
    RunEffect :=
  let name := targetTerminalName s
  if s.reuse ≠ some false ∧ name ∈ openTerminals then
    { reusedExisting := true
      terminalName := name
      createdWith := none
      focusShown := s.focus ≠ some false
      sentText := s.command
      sentNewline := true }
  else
    { reusedExisting := false
      terminalName := name
      createdWith := some
        { name := name
          cwd := s.cwd
          env := s.env
          location := resolveTerminalLocation s }
      focusShown := s.focus ≠ some false
      sentText := s.command
      sentNewline := true }

/-- The outcome of the `terminalShortcuts.runShortcut` command handler:
either no action (the `id` argument was absent or empty, JavaScript-falsy),
a shortcut run, or a user-visible error message. -/
inductive RunCommandOutcome where
  | noAction
  | ran (effect : RunEffect)
  | showedError (message : String)
deriving DecidableEq

/-- The `terminalShortcuts.runShortcut` command handler from extension.ts
(`activate`, lines 113-122), as a pure function of the resolved shortcut
list, the `id` argument, and the open terminal names: `if (!id) return;`
then look the id up, run on success, otherwise show
`` `Raccourci introuvable: ${id}` ``. -/
def runShortcutCommand (shortcuts : List TerminalShortcutConfig)
    (id : Option String) (openTerminals : List String) : RunCommandOutcome :=
  match id with
  | none => RunCommandOutcome.noAction
  | some i =>
    if i = "" then RunCommandOutcome.noAction
    else
      match shortcuts.find? fun x => x.id = i with
      | some s => RunCommandOutcome.ran (runShortcut s openTerminals)
      | none => RunCommandOutcome.showedError ("Raccourci introuvable: " ++ i)

/-- Sample record, fully normalized (all four defaulted fields present). -/
def sampleA : TerminalShortcutConfig :=
  { id := "a", label := "A", command := "ca", reuse := some true,
    focus := some true, codicon := some "terminal",
    location := some ShortcutLocation.editor }

/-- Second sample record, fully normalized, with a distinct id. -/
def sampleB : TerminalShortcutConfig :=
  { id := "b", label := "B", command := "cb", reuse := some true,
    focus := some true, codicon := some "terminal",
    location := some ShortcutLocation.editor }

/-- A record sharing `sampleA`'s id but with different content, fully
normalized. -/
def sampleA2 : TerminalShortcutConfig :=
  { id := "a", label := "A2", command := "ca2", reuse := some true,
    focus := some true, codicon := some "terminal",
    location := some ShortcutLocation.editor }

/-- Sample record with none of the defaulted fields present. -/
def sampleRawC : TerminalShortcutConfig :=
  { id := "c", label := "C", command := "cc" }

/-- Sample record with a terminal name, `reuse` absent (so not false). -/
def sampleBuild : TerminalShortcutConfig :=
  { id := "build", label := "Build", command := "npm run build",
    terminalName := some "Build" }

/-- The branches of `runShortcut`, with the `let` inlined: reuse an open
terminal exactly when `reuse !== false` and one with the target name is
open, else create one with the record's cwd, env and resolved location. -/
theorem runShortcut_eq (s : TerminalShortcutConfig) (opens : List String) :
    runShortcut s opens
      = if s.reuse ≠ some false ∧ targetTerminalName s ∈ opens then
          (⟨true, targetTerminalName s, none, s.focus ≠ some false,
            s.command, true⟩ : RunEffect)
        else
          ⟨false, targetTerminalName s,
            some ⟨targetTerminalName s, s.cwd, s.env,
              resolveTerminalLocation s⟩,
            s.focus ≠ some false, s.command, true⟩ := rfl

/- Helper lemmas about normalization. -/

/-- Normalization never changes a record's id. -/
theorem normalizeShortcut_id (s : TerminalShortcutConfig) :
    (normalizeShortcut s).id = s.id := rfl

/-- Normalization distributes over list append. -/
theorem normalizeShortcuts_append (a b : List TerminalShortcutConfig) :
    normalizeShortcuts (a ++ b) = normalizeShortcuts a ++ normalizeShortcuts b :=
  List.map_append normalizeShortcut a b

/-- Normalization commutes with filtering by a predicate it does not
affect. -/
theorem normalizeShortcuts_filter (p : TerminalShortcutConfig → Bool)
    (hp : ∀ s, p (normalizeShortcut s) = p s) (l : List TerminalShortcutConfig) :
    normalizeShortcuts (l.filter p) = (normalizeShortcuts l).filter p := by
  induction l with
  | nil => rfl
  | cons a t ih =>
    simp only [normalizeShortcuts, List.filter_cons, List.map_cons] at *
    rw [hp a]
    cases h : p a <;> simp [h, ih]

/-- Normalization preserves the list of ids. -/
theorem normalizeShortcuts_map_id (l : List TerminalShortcutConfig) :
    (normalizeShortcuts l).map (fun s => s.id) = l.map fun s => s.id := by
  induction l with
  | nil => rfl
  | cons a t ih =>
    simp only [normalizeShortcuts, List.map_cons] at *
    rw [ih]
    rfl

/-- Core shape of a merged resolution on already-normalized inputs: the file
list followed by the settings entries whose ids the file does not use. -/
theorem loadShortcuts_merge_eq (F S : List TerminalShortcutConfig)
    (hF : normalizeShortcuts F = F) (hS : normalizeShortcuts S = S) :
    loadShortcuts (some { commands := some F }) S true
      = F ++ S.filter fun s => s.id ∉ F.map fun t => t.id := by
  show normalizeShortcuts (mergeShortcuts F S) = _
  rw [show mergeShortcuts F S
      = F ++ S.filter (fun s => s.id ∉ F.map fun t => t.id) from rfl]
  have hfilter := normalizeShortcuts_filter
    (fun s : TerminalShortcutConfig =>
      decide (s.id ∉ F.map fun t : TerminalShortcutConfig => t.id))
    (fun s => rfl) S
  rw [normalizeShortcuts_append, hF, hfilter, hS]

/-- C1: with the merge flag enabled and the per-project file present and used
as primary, `resolve(F, S)` is `F` followed by exactly the entries of `S`
whose ids are absent from `F`, in `S`'s order; in particular the first
`len(F)` entries equal `F`, and a settings entry whose id also occurs in the
file survives only if it is the file's record. `F` and `S` range over lists
of fully-resolved `ShortcutRecord`s (records with the §3 defaults applied,
i.e. fixed by `normalizeShortcuts`). -/
theorem loadShortcuts_merge_enabled_spec (F S : List TerminalShortcutConfig)
    (hF : normalizeShortcuts F = F) (hS : normalizeShortcuts S = S) :
    loadShortcuts (some { commands := some F }) S true
      = F ++ S.filter (fun s => s.id ∉ F.map fun t => t.id)
    ∧ (loadShortcuts (some { commands := some F }) S true).take F.length = F
    ∧ ∀ s2 ∈ S, s2.id ∈ F.map (fun t => t.id) →
        s2 ∈ loadShortcuts (some { commands := some F }) S true → s2 ∈ F := by
  have hmain := loadShortcuts_merge_eq F S hF hS
  refine ⟨hmain, ?_, ?_⟩
  · rw [hmain, List.take_left]
  · intro s2 _ hid hmem
    rw [hmain] at hmem
    rcases List.mem_append.mp hmem with h | h
    · exact h
    · exact absurd hid (by simpa using (List.mem_filter.mp h).2)

/-- Witness for `loadShortcuts_merge_enabled_spec` at concrete lists: the file
list `[sampleA]` merged with the settings list `[sampleA2, sampleB]`. -/
theorem loadShortcuts_merge_enabled_spec_witness :
    loadShortcuts (some { commands := some [sampleA] }) [sampleA2, sampleB] true
      = [sampleA] ++ [sampleA2, sampleB].filter
          (fun s => s.id ∉ [sampleA].map fun t => t.id) :=
  (loadShortcuts_merge_enabled_spec [sampleA] [sampleA2, sampleB]
    (by decide) (by decide)).1

/-- C2 (amended): `resolve` is a total function; when the per-project file is
missing or unparseable, or parses without a `commands` array, the result is
`normalize(S)` for either value of the merge flag; when the file's `commands`
list is present but empty, the result is `normalize(S)` with the merge flag
enabled, but the empty list with the merge flag disabled (an empty `commands`
array is truthy in JavaScript, so the file is still used as primary). -/
theorem loadShortcuts_file_absent_or_empty (S : List TerminalShortcutConfig)
    (m : Bool) :
    loadShortcuts none S m = normalizeShortcuts S
    ∧ loadShortcuts (some { commands := none }) S m = normalizeShortcuts S
    ∧ loadShortcuts (some { commands := some [] }) S true = normalizeShortcuts S
    ∧ loadShortcuts (some { commands := some [] }) S false = [] := by
  refine ⟨rfl, rfl, ?_, rfl⟩
  show normalizeShortcuts (mergeShortcuts [] S) = normalizeShortcuts S
  congr 1
  simp [mergeShortcuts]

/-- Counterexample to C2 as stated: a per-project file that parses to
`{ "commands": [] }` contributes no data, yet with the merge flag disabled
the resolved list is empty rather than `normalize(S)`. -/
theorem loadShortcuts_empty_commands_cex :
    loadShortcuts (some { commands := some [] }) [sampleRawC] false
      ≠ normalizeShortcuts [sampleRawC] := by
  decide

/-- C4: with the merge flag disabled and a non-empty file list `F` (of
fully-resolved records), `resolve(F, S)` equals `F` exactly; `S` is a free
variable of the statement and has no influence on the result. -/
theorem loadShortcuts_merge_disabled (F S : List TerminalShortcutConfig)
    (_hne : F ≠ []) (hF : normalizeShortcuts F = F) :
    loadShortcuts (some { commands := some F }) S false = F := by
  show normalizeShortcuts F = F
  exact hF

/-- Witness for `loadShortcuts_merge_disabled`: the file list `[sampleA]`
with settings list `[sampleRawC]`. -/
theorem loadShortcuts_merge_disabled_witness :
    loadShortcuts (some { commands := some [sampleA] }) [sampleRawC] false
      = [sampleA] :=
  loadShortcuts_merge_disabled [sampleA] [sampleRawC] (by decide) (by decide)

/-- C3: for every file input, settings list and merge-flag setting, the list
produced by `resolve` has pairwise-distinct ids, and a settings record whose
id also occurs in the file list appears in the result only if it is the
file's record (the file source wins). The sources are well-formed per §3:
each source list has distinct ids (id is a unique key) and consists of
fully-resolved records. -/
theorem loadShortcuts_ids_nodup (fromFile : Option FileConfig)
    (S : List TerminalShortcutConfig) (m : Bool)
    (hfile : ∀ F, fromFile = some { commands := some F } →
        (F.map fun s => s.id).Nodup ∧ normalizeShortcuts F = F)
    (hS : (S.map fun s => s.id).Nodup) (hSn : normalizeShortcuts S = S) :
    ((loadShortcuts fromFile S m).map fun s => s.id).Nodup
    ∧ ∀ F, fromFile = some { commands := some F } → ∀ s2 ∈ S,
        s2.id ∈ F.map (fun t => t.id) →
        s2 ∈ loadShortcuts fromFile S m → s2 ∈ F := by
  match fromFile with
  | none =>
    refine ⟨?_, ?_⟩
    · show ((normalizeShortcuts S).map fun s => s.id).Nodup
      rw [normalizeShortcuts_map_id]
      exact hS
    · intro F hF
      exact absurd hF (by simp)
  | some { commands := none } =>
    refine ⟨?_, ?_⟩
    · show ((normalizeShortcuts S).map fun s => s.id).Nodup
      rw [normalizeShortcuts_map_id]
      exact hS
    · intro F hF
      exact absurd hF (by simp)
  | some { commands := some F } =>
    obtain ⟨hFid, hFn⟩ := hfile F rfl
    cases m with
    | false =>
      have hres : loadShortcuts (some { commands := some F }) S false = F := by
        show normalizeShortcuts F = F
        exact hFn
      refine ⟨?_, ?_⟩
      · rw [hres]
        exact hFid
      · intro F' hF'
        obtain rfl : F' = F := by simpa using hF'.symm
        intro s2 _ _ hmem
        rw [hres] at hmem
        exact hmem
    | true =>
      have hres := loadShortcuts_merge_eq F S hFn hSn
      refine ⟨?_, ?_⟩
      · rw [hres, List.map_append]
        rw [List.nodup_append]
        refine ⟨hFid, ?_, ?_⟩
        · exact List.Nodup.sublist ((List.filter_sublist S).map fun s => s.id) hS
        · intro x hxF hxfilt
          obtain ⟨s, hsmem, rfl⟩ := List.mem_map.mp hxfilt
          have hnot : s.id ∉ F.map fun t => t.id := by
            simpa using (List.mem_filter.mp hsmem).2
          exact hnot hxF
      · intro F' hF'
        obtain rfl : F' = F := by simpa using hF'.symm
        intro s2 _ hid hmem
        rw [hres] at hmem
        rcases List.mem_append.mp hmem with h | h
        · exact h
        · exact absurd hid (by simpa using (List.mem_filter.mp h).2)

/-- Witness for `loadShortcuts_ids_nodup`: merging the file list `[sampleA]`
with the settings list `[sampleA2, sampleB]` yields pairwise-distinct ids. -/
theorem loadShortcuts_ids_nodup_witness :
    ((loadShortcuts (some { commands := some [sampleA] }) [sampleA2, sampleB]
        true).map fun s => s.id).Nodup :=
  (loadShortcuts_ids_nodup (some { commands := some [sampleA] })
    [sampleA2, sampleB] true
    (by
      intro F hF
      obtain rfl : [sampleA] = F := by simpa using hF
      exact ⟨by decide, by decide⟩)
    (by decide) (by decide)).1

/-- C5: `normalize` maps each record through `normalizeShortcut`, which sets
`reuse := true`, `focus := true` (spec name `focusOnRun`),
`codicon := "terminal"` (spec name `statusIcon`) and `location := editor`
exactly on the records where these fields are absent, never overwrites a
field that is present, and leaves every other field unchanged. -/
theorem normalizeShortcuts_spec (arr : List TerminalShortcutConfig)
    (s : TerminalShortcutConfig) :
    normalizeShortcuts arr = arr.map normalizeShortcut
    ∧ (normalizeShortcut s).id = s.id
    ∧ (normalizeShortcut s).label = s.label
    ∧ (normalizeShortcut s).command = s.command
    ∧ (normalizeShortcut s).terminalName = s.terminalName
    ∧ (normalizeShortcut s).cwd = s.cwd
    ∧ (normalizeShortcut s).env = s.env
    ∧ (normalizeShortcut s).statusBar = s.statusBar
    ∧ (normalizeShortcut s).statusBarText = s.statusBarText
    ∧ (normalizeShortcut s).icon = s.icon
    ∧ (normalizeShortcut s).viewColumn = s.viewColumn
    ∧ (s.reuse = none → (normalizeShortcut s).reuse = some true)
    ∧ (∀ b, s.reuse = some b → (normalizeShortcut s).reuse = some b)
    ∧ (s.focus = none → (normalizeShortcut s).focus = some true)
    ∧ (∀ b, s.focus = some b → (normalizeShortcut s).focus = some b)
    ∧ (s.codicon = none → (normalizeShortcut s).codicon = some "terminal")
    ∧ (∀ c, s.codicon = some c → (normalizeShortcut s).codicon = some c)
    ∧ (s.location = none →
        (normalizeShortcut s).location = some ShortcutLocation.editor)
    ∧ (∀ l, s.location = some l → (normalizeShortcut s).location = some l) := by
  refine ⟨rfl, rfl, rfl, rfl, rfl, rfl, rfl, rfl, rfl, rfl, rfl,
    ?_, ?_, ?_, ?_, ?_, ?_, ?_, ?_⟩
  all_goals
    first
    | (intro h; simp [normalizeShortcut, h])
    | (intro b h; simp [normalizeShortcut, h])

/-- Sample record with `reuse` explicitly false and the other three defaulted
fields absent. -/
def sampleNoReuse : TerminalShortcutConfig :=
  { id := "w", label := "W", command := "cw", reuse := some false }

/-- Witness for `normalizeShortcuts_spec`: a record with `reuse := false`
present keeps it, while its absent `focus`, `codicon` and `location` get the
defaults. -/
theorem normalizeShortcuts_spec_witness :
    (normalizeShortcut sampleNoReuse).reuse = some false
    ∧ (normalizeShortcut sampleNoReuse).focus = some true
    ∧ (normalizeShortcut sampleNoReuse).codicon = some "terminal"
    ∧ (normalizeShortcut sampleNoReuse).location
        = some ShortcutLocation.editor := by
  have h := normalizeShortcuts_spec [] sampleNoReuse
  exact ⟨h.2.2.2.2.2.2.2.2.2.2.2.2.1 false rfl,
    h.2.2.2.2.2.2.2.2.2.2.2.2.2.1 rfl,
    h.2.2.2.2.2.2.2.2.2.2.2.2.2.2.2.1 rfl,
    h.2.2.2.2.2.2.2.2.2.2.2.2.2.2.2.2.2.1 rfl⟩

/-- C6: `makeUniqueId(base, existingIds)` returns `base` when `base` is not
taken, and otherwise `base-k` for the least positive `k` whose candidate is
not taken; in particular the three concrete examples from the spec hold. -/
theorem makeUniqueId_spec (base : String) (existing : List String) :
    (base ∉ existing → makeUniqueId base existing = base)
    ∧ (base ∈ existing → ∃ k, 0 < k
        ∧ makeUniqueId base existing = candidateId base k
        ∧ candidateId base k ∉ existing
        ∧ ∀ j, 0 < j → j < k → candidateId base j ∈ existing)
    ∧ makeUniqueId "build" [] = "build"
    ∧ makeUniqueId "build" ["build"] = "build-1"
    ∧ makeUniqueId "build" ["build", "build-1"] = "build-2" := by
  refine ⟨?_, ?_, ?_, ?_, ?_⟩
  · intro h
    rw [makeUniqueId, if_neg h]
  · intro h
    rw [makeUniqueId, if_pos h]
    refine ⟨Nat.find (exists_candidate_free base existing) + 1,
      Nat.succ_pos _, rfl,
      Nat.find_spec (exists_candidate_free base existing), ?_⟩
    intro j hj hjk
    match j, hj with
    | j' + 1, _ =>
      have hlt : j' < Nat.find (exists_candidate_free base existing) := by
        omega
      have hmin := Nat.find_min (exists_candidate_free base existing) hlt
      exact not_not.mp hmin
  · rw [makeUniqueId, if_neg (by decide)]
  · rw [makeUniqueId, if_pos (by decide)]
    have h2 : Nat.find (exists_candidate_free "build" ["build"]) = 0 :=
      (Nat.find_eq_zero _).mpr (by decide)
    rw [h2]
    decide
  · rw [makeUniqueId, if_pos (by decide)]
    have h2 : Nat.find (exists_candidate_free "build" ["build", "build-1"])
        = 1 := (Nat.find_eq_iff _).mpr (by decide)
    rw [h2]
    decide

/-- Witness for `makeUniqueId_spec`: both branches at concrete inputs. -/
theorem makeUniqueId_spec_witness :
    makeUniqueId "x" [] = "x"
    ∧ ∃ k, 0 < k ∧ makeUniqueId "x" ["x"] = candidateId "x" k
        ∧ candidateId "x" k ∉ ["x"]
        ∧ ∀ j, 0 < j → j < k → candidateId "x" j ∈ ["x"] :=
  ⟨(makeUniqueId_spec "x" []).1 (by decide),
    (makeUniqueId_spec "x" ["x"]).2.1 (by decide)⟩

/-- C10: `makeUniqueId` is total: a free positive suffix always exists (the
loop terminates), and the returned id is never one of the existing ids. -/
theorem makeUniqueId_total (base : String) (existing : List String) :
    (∃ k, 0 < k ∧ candidateId base k ∉ existing)
    ∧ makeUniqueId base existing ∉ existing := by
  obtain ⟨j, hj⟩ := exists_candidate_free base existing
  refine ⟨⟨j + 1, Nat.succ_pos j, hj⟩, ?_⟩
  rw [makeUniqueId]
  split
  · exact Nat.find_spec (exists_candidate_free base existing)
  · next h => exact h

/-- C7: `run(record)` targets the terminal named `record.terminalName`, else
`record.label`, else `record.id` (JavaScript string truthiness: an absent or
empty name falls through); when `reuse` is not explicitly false and a session
with that name is open, no terminal is created and the command text is sent
there; otherwise — in particular whenever `reuse = false`, even with a
same-named session open — a new terminal is created with the record's cwd,
env and resolved location. -/
theorem runShortcut_spec (s : TerminalShortcutConfig) (opens : List String) :
    (∀ t, s.terminalName = some t → t ≠ "" →
        (runShortcut s opens).terminalName = t)
    ∧ ((s.terminalName = none ∨ s.terminalName = some "") → s.label ≠ "" →
        (runShortcut s opens).terminalName = s.label)
    ∧ ((s.terminalName = none ∨ s.terminalName = some "") → s.label = "" →
        (runShortcut s opens).terminalName = s.id)
    ∧ (s.reuse ≠ some false → targetTerminalName s ∈ opens →
        (runShortcut s opens).reusedExisting = true
        ∧ (runShortcut s opens).createdWith = none)
    ∧ ((s.reuse = some false ∨ targetTerminalName s ∉ opens) →
        (runShortcut s opens).reusedExisting = false
        ∧ (runShortcut s opens).createdWith
            = some ⟨targetTerminalName s, s.cwd, s.env,
                resolveTerminalLocation s⟩)
    ∧ (runShortcut s opens).terminalName = targetTerminalName s
    ∧ (runShortcut s opens).sentText = s.command
    ∧ (runShortcut s opens).sentNewline = true := by
  have hname : (runShortcut s opens).terminalName = targetTerminalName s := by
    rw [runShortcut_eq]
    split <;> rfl
  refine ⟨?_, ?_, ?_, ?_, ?_, hname, ?_, ?_⟩
  · intro t ht hte
    rw [hname]
    simp [targetTerminalName, jsOrString, ht, hte]
  · intro h hl
    rcases h with h | h <;> rw [hname] <;>
      simp [targetTerminalName, jsOrString, h, hl]
  · intro h hl
    rcases h with h | h <;> rw [hname] <;>
      simp [targetTerminalName, jsOrString, h, hl]
  · intro h1 h2
    rw [runShortcut_eq, if_pos ⟨h1, h2⟩]
    exact ⟨rfl, rfl⟩
  · intro h
    have hc : ¬ (s.reuse ≠ some false ∧ targetTerminalName s ∈ opens) := by
      rcases h with h | h
      · exact fun hc => hc.1 h
      · exact fun hc => h hc.2
    rw [runShortcut_eq, if_neg hc]
    exact ⟨rfl, rfl⟩
  · rw [runShortcut_eq]
    split <;> rfl
  · rw [runShortcut_eq]
    split <;> rfl

/-- Witness for `runShortcut_spec`: `sampleBuild` with a session named
"Build" already open reuses it and creates nothing. -/
theorem runShortcut_spec_witness :
    (runShortcut sampleBuild ["Build"]).reusedExisting = true
    ∧ (runShortcut sampleBuild ["Build"]).createdWith = none :=
  (runShortcut_spec sampleBuild ["Build"]).2.2.2.1 (by decide) (by decide)

/-- C8: the boolean handed to `terminal.show` — foreground focus — is true
exactly when the record's `focus` field (spec name `focusOnRun`) is not the
explicit value false. -/
theorem runShortcut_focus_iff (s : TerminalShortcutConfig)
    (opens : List String) :
    (runShortcut s opens).focusShown = true ↔ s.focus ≠ some false := by
  rw [runShortcut_eq]
  split <;> simp

/-- C9: a run-by-id request whose (non-empty) id matches no record of the
resolved list produces the user-visible error notice and no terminal action:
the outcome is `showedError`, never a run effect. -/
theorem runShortcutCommand_unknown_id (L : List TerminalShortcutConfig)
    (i : String) (opens : List String) (hne : i ≠ "")
    (habsent : ∀ s ∈ L, s.id ≠ i) :
    runShortcutCommand L (some i) opens
      = RunCommandOutcome.showedError ("Raccourci introuvable: " ++ i)
    ∧ ∀ eff, runShortcutCommand L (some i) opens
        ≠ RunCommandOutcome.ran eff := by
  have hfind : L.find? (fun x => decide (x.id = i)) = none := by
    rw [List.find?_eq_none]
    intro x hx
    simpa using habsent x hx
  have hmain : runShortcutCommand L (some i) opens
      = RunCommandOutcome.showedError ("Raccourci introuvable: " ++ i) := by
    simp only [runShortcutCommand]
    rw [if_neg hne, hfind]
  refine ⟨hmain, ?_⟩
  rw [hmain]
  exact fun eff h => RunCommandOutcome.noConfusion h

/-- Witness for `runShortcutCommand_unknown_id`: the id "zzz" is absent from
the resolved list `[sampleA]`. -/
theorem runShortcutCommand_unknown_id_witness :
    runShortcutCommand [sampleA] (some "zzz") []
      = RunCommandOutcome.showedError ("Raccourci introuvable: " ++ "zzz") :=
  (runShortcutCommand_unknown_id [sampleA] "zzz" [] (by decide)
    (by decide)).1
